import Mathlib

/-!
# Verification of the S3 secure-downloader core (DocumentSigner)

Shallow embedding of the signing / download utility (`s3-downloader`):
UTF-8 and percent encoding, the S3 key encoder, AWS Signature V4 signing-key
derivation (SHA-256 / HMAC-SHA256 over byte lists), the retrying fetcher,
the strategy downloader, and the connection tester.  JavaScript strings are
modelled as `List Char`, raw byte strings as `List Nat` (each entry `< 256`,
arithmetic is `Nat` with explicit `% 2^32` where 32-bit wrapping matters).
-/

namespace S3D

/-! ## Bytes and UTF-8 -/

/-- UTF-8 encoding of a single Unicode scalar value `n` (as in the WHATWG
encoder used by `encodeURIComponent` and by CryptoJS for string inputs). -/
def utf8EncodeCodepoint (n : Nat) : List Nat :=
  if n < 0x80 then [n]
  else if n < 0x800 then [0xC0 + n / 64, 0x80 + n % 64]
  else if n < 0x10000 then [0xE0 + n / 4096, 0x80 + n / 64 % 64, 0x80 + n % 64]
  else [0xF0 + n / 262144, 0x80 + n / 4096 % 64, 0x80 + n / 64 % 64, 0x80 + n % 64]

/-- UTF-8 encoding of a string (JS strings are encoded before hashing). -/
def utf8Encode (s : List Char) : List Nat :=
  s.flatMap fun c => utf8EncodeCodepoint c.toNat

/-! ## SHA-256 over byte lists (FIPS 180-4), 32-bit words as `Nat % 2^32` -/

/-- The 64 SHA-256 round constants (FIPS 180-4 §4.2.2), written in decimal. -/
def shaK : List Nat :=
  [1116352408, 1899447441, 3049323471, 3921009573, 961987163,
   1508970993, 2453635748, 2870763221, 3624381080, 310598401,
   607225278, 1426881987, 1925078388, 2162078206, 2614888103,
   3248222580, 3835390401, 4022224774, 264347078, 604807628,
   770255983, 1249150122, 1555081692, 1996064986, 2554220882,
   2821834349, 2952996808, 3210313671, 3336571891, 3584528711,
   113926993, 338241895, 666307205, 773529912, 1294757372,
   1396182291, 1695183700, 1986661051, 2177026350, 2456956037,
   2730485921, 2820302411, 3259730800, 3345764771, 3516065817,
   3600352804, 4094571909, 275423344, 430227734, 506948616,
   659060556, 883997877, 958139571, 1322822218, 1537002063,
   1747873779, 1955562222, 2024104815, 2227730452, 2361852424,
   2428436474, 2756734187, 3204031479, 3329325298]

/-- The eight SHA-256 initial hash values (FIPS 180-4 §5.3.3), in decimal. -/
def shaInit : List Nat :=
  [1779033703, 3144134277, 1013904242, 2773480762,
   1359893119, 2600822924, 528734635, 1541459225]

/-- Right rotation of a 32-bit word (word given as `Nat < 2^32`). -/
def rotr32 (n x : Nat) : Nat := x / 2 ^ n + x % 2 ^ n * 2 ^ (32 - n)

/-- Bitwise complement within 32 bits. -/
def not32 (x : Nat) : Nat := Nat.xor x 0xFFFFFFFF

def shaCh (x y z : Nat) : Nat := Nat.xor (Nat.land x y) (Nat.land (not32 x) z)

def shaMaj (x y z : Nat) : Nat :=
  Nat.xor (Nat.xor (Nat.land x y) (Nat.land x z)) (Nat.land y z)

def bsig0 (x : Nat) : Nat := Nat.xor (Nat.xor (rotr32 2 x) (rotr32 13 x)) (rotr32 22 x)
def bsig1 (x : Nat) : Nat := Nat.xor (Nat.xor (rotr32 6 x) (rotr32 11 x)) (rotr32 25 x)
def ssig0 (x : Nat) : Nat := Nat.xor (Nat.xor (rotr32 7 x) (rotr32 18 x)) (x / 8)
def ssig1 (x : Nat) : Nat := Nat.xor (Nat.xor (rotr32 17 x) (rotr32 19 x)) (x / 1024)

/-- Big-endian 8-byte serialization. -/
def be64 (n : Nat) : List Nat :=
  [n / 2 ^ 56 % 256, n / 2 ^ 48 % 256, n / 2 ^ 40 % 256, n / 2 ^ 32 % 256,
   n / 2 ^ 24 % 256, n / 2 ^ 16 % 256, n / 2 ^ 8 % 256, n % 256]

/-- Big-endian 4-byte serialization. -/
def be32 (n : Nat) : List Nat :=
  [n / 2 ^ 24 % 256, n / 2 ^ 16 % 256, n / 2 ^ 8 % 256, n % 256]

/-- SHA-256 padding: append `0x80`, zeros to 56 mod 64, then the 64-bit
big-endian bit length. -/
def padBytes (msg : List Nat) : List Nat :=
  msg ++ 0x80 :: List.replicate ((119 - msg.length % 64) % 64) 0 ++ be64 (msg.length * 8)

/-- Group bytes into big-endian 32-bit words. -/
def toWords : List Nat → List Nat
  | b0 :: b1 :: b2 :: b3 :: rest =>
      (b0 * 16777216 + b1 * 65536 + b2 * 256 + b3) :: toWords rest
  | _ => []

/-- Message-schedule extension; `w` is kept most-recent-first. -/
def extendW : Nat → List Nat → List Nat
  | 0, w => w.reverse
  | k + 1, w =>
      extendW k
        (((ssig1 (w.getD 1 0) + w.getD 6 0 + ssig0 (w.getD 14 0) + w.getD 15 0) % 2 ^ 32) :: w)

/-- Full 64-word message schedule of one 64-byte block. -/
def schedule (block : List Nat) : List Nat := extendW 48 (toWords block).reverse

/-- The 64 compression rounds, state as an 8-tuple of 32-bit words. -/
def rounds :
    List (Nat × Nat) → Nat × Nat × Nat × Nat × Nat × Nat × Nat × Nat →
      Nat × Nat × Nat × Nat × Nat × Nat × Nat × Nat
  | [], s => s
  | (ki, wi) :: rest, (a, b, c, d, e, f, g, h) =>
      let t1 := (h + bsig1 e + shaCh e f g + ki + wi) % 2 ^ 32
      let t2 := (bsig0 a + shaMaj a b c) % 2 ^ 32
      rounds rest ((t1 + t2) % 2 ^ 32, a, b, c, (d + t1) % 2 ^ 32, e, f, g)

/-- One block step of SHA-256: compress `block` into the 8-word state. -/
def compressBlock (st block : List Nat) : List Nat :=
  match st with
  | [h0, h1, h2, h3, h4, h5, h6, h7] =>
      match rounds (shaK.zip (schedule block)) (h0, h1, h2, h3, h4, h5, h6, h7) with
      | (a, b, c, d, e, f, g, h) =>
          [(h0 + a) % 2 ^ 32, (h1 + b) % 2 ^ 32, (h2 + c) % 2 ^ 32, (h3 + d) % 2 ^ 32,
           (h4 + e) % 2 ^ 32, (h5 + f) % 2 ^ 32, (h6 + g) % 2 ^ 32, (h7 + h) % 2 ^ 32]
  | _ => st

/-- Process a padded message 64 bytes at a time (fuel-based structural
recursion so that the kernel can evaluate it; the fuel `l.length` always
suffices since every step consumes at least one byte). -/
def processBlocksAux : Nat → List Nat → List Nat → List Nat
  | 0, st, _ => st
  | _ + 1, st, [] => st
  | fuel + 1, st, x :: xs =>
      processBlocksAux fuel (compressBlock st ((x :: xs).take 64)) ((x :: xs).drop 64)

/-- Process a padded message 64 bytes at a time. -/
def processBlocks (st l : List Nat) : List Nat := processBlocksAux l.length st l

/-- SHA-256 of a byte list, as 32 output bytes. -/
def sha256 (msg : List Nat) : List Nat :=
  (processBlocks shaInit (padBytes msg)).flatMap be32

/-! ## HMAC-SHA256 (FIPS 198-1; as computed by `CryptoJS.HmacSHA256`) -/

/-- HMAC-SHA256 with byte-list key and message. -/
def hmacSHA256 (key msg : List Nat) : List Nat :=
  let k0 := if 64 < key.length then sha256 key else key
  let k := k0 ++ List.replicate (64 - k0.length) 0
  sha256 ((k.map fun b => Nat.xor b 0x5c) ++ sha256 ((k.map fun b => Nat.xor b 0x36) ++ msg))

/-- Lowercase hex digit. -/
def hexDigitL (n : Nat) : Char :=
  if n < 10 then Char.ofNat (48 + n) else Char.ofNat (87 + n)

/-- Lowercase hex rendering of a byte list (CryptoJS `toString()`). -/
def bytesToHex (l : List Nat) : List Char :=
  l.flatMap fun b => [hexDigitL (b / 16), hexDigitL (b % 16)]

/-! ## `createSigningKey` (source lines 71–78)

```js
const kDate = CryptoJS.HmacSHA256(dateStamp, `AWS4${secretKey}`);
const kRegion = CryptoJS.HmacSHA256(region, kDate);
const kService = CryptoJS.HmacSHA256(service, kRegion);
const kSigning = CryptoJS.HmacSHA256('aws4_request', kService);
return kSigning;
```
`CryptoJS.HmacSHA256(message, key)` UTF-8-encodes string arguments; a
`WordArray` key (the previous stage's raw digest) is used as raw bytes. -/

def createSigningKey (secretKey dateStamp region service : List Char) : List Nat :=
  let kDate := hmacSHA256 (utf8Encode ("AWS4".data ++ secretKey)) (utf8Encode dateStamp)
  let kRegion := hmacSHA256 kDate (utf8Encode region)
  let kService := hmacSHA256 kRegion (utf8Encode service)
  let kSigning := hmacSHA256 kService (utf8Encode "aws4_request".data)
  kSigning

/-! ## Percent encoding and `encodeS3Key` (source lines 18–53) -/

/-- Uppercase hex digit. -/
def hexDigitU (n : Nat) : Char := if n < 10 then Char.ofNat (48 + n) else Char.ofNat (55 + n)

/-- `'%'` followed by the two uppercase hex digits of a byte. -/
def pctEncodeByte (b : Nat) : List Char := ['%', hexDigitU (b / 16), hexDigitU (b % 16)]

/-- `c.charCodeAt(0).toString(16).toUpperCase()` for codes `< 256`. -/
def jsHexUpper (n : Nat) : List Char :=
  if n < 16 then [hexDigitU n] else [hexDigitU (n / 16), hexDigitU (n % 16)]

/-- The ECMAScript `uriUnescaped` set kept verbatim by `encodeURIComponent`:
ASCII alphanumerics and `- _ . ! ~ * ' ( )`. -/
def uriUnescaped (c : Char) : Bool :=
  c.isAlphanum || c ∈ ['-', '_', '.', '!', '~', '*', '\'', '(', ')']

/-- ECMAScript `encodeURIComponent`: unreserved characters pass through,
everything else becomes uppercase percent-encoded UTF-8 bytes. -/
def encodeURIComponentJS (s : List Char) : List Char :=
  s.flatMap fun c =>
    if uriUnescaped c then [c]
    else (utf8EncodeCodepoint c.toNat).flatMap pctEncodeByte

/-- Value of one hex digit (JS accepts both cases in escapes). -/
def hexVal (c : Char) : Option Nat :=
  if '0' ≤ c ∧ c ≤ '9' then some (c.toNat - 48)
  else if 'a' ≤ c ∧ c ≤ 'f' then some (c.toNat - 87)
  else if 'A' ≤ c ∧ c ≤ 'F' then some (c.toNat - 55)
  else none

/-- Read one `%HH` escape from the head of the input, returning its byte
value and the rest. -/
def readEsc : List Char → Option (Nat × List Char)
  | '%' :: h :: l :: rest =>
      match hexVal h, hexVal l with
      | some a, some b => some (a * 16 + b, rest)
      | _, _ => none
  | _ => none

/-- UTF-8 continuation byte. -/
def isCont (b : Nat) : Bool := 0x80 ≤ b && b ≤ 0xBF

/-- Worker for ECMAScript `decodeURIComponent`: literal characters pass
through; an escape sequence must start a strict UTF-8 encoding whose
continuation bytes also come from escapes; anything malformed (bad hex,
stray continuation, overlong form, surrogate, out of range) yields `none`
(the thrown `URIError`).  The fuel is an upper bound on the number of
characters; every step consumes at least one. -/
def decAux : Nat → List Char → Option (List Char)
  | _, [] => some []
  | 0, _ :: _ => none
  | fuel + 1, c :: t =>
      if c = '%' then
        match readEsc (c :: t) with
        | none => none
        | some (b, r1) =>
            if b < 0x80 then (decAux fuel r1).map (Char.ofNat b :: ·)
            else if 0xC2 ≤ b ∧ b ≤ 0xDF then
              match readEsc r1 with
              | some (b1, r2) =>
                  if isCont b1 then
                    (decAux fuel r2).map (Char.ofNat ((b - 0xC0) * 64 + (b1 - 0x80)) :: ·)
                  else none
              | none => none
            else if 0xE0 ≤ b ∧ b ≤ 0xEF then
              match readEsc r1 with
              | some (b1, r2) =>
                  match readEsc r2 with
                  | some (b2, r3) =>
                      if isCont b1 ∧ isCont b2 ∧
                          0x800 ≤ (b - 0xE0) * 4096 + (b1 - 0x80) * 64 + (b2 - 0x80) ∧
                          ¬(0xD800 ≤ (b - 0xE0) * 4096 + (b1 - 0x80) * 64 + (b2 - 0x80) ∧
                            (b - 0xE0) * 4096 + (b1 - 0x80) * 64 + (b2 - 0x80) ≤ 0xDFFF) then
                        (decAux fuel r3).map
                          (Char.ofNat ((b - 0xE0) * 4096 + (b1 - 0x80) * 64 + (b2 - 0x80)) :: ·)
                      else none
                  | none => none
              | none => none
            else if 0xF0 ≤ b ∧ b ≤ 0xF4 then
              match readEsc r1 with
              | some (b1, r2) =>
                  match readEsc r2 with
                  | some (b2, r3) =>
                      match readEsc r3 with
                      | some (b3, r4) =>
                          if isCont b1 ∧ isCont b2 ∧ isCont b3 ∧
                              0x10000 ≤ (b - 0xF0) * 262144 + (b1 - 0x80) * 4096 +
                                (b2 - 0x80) * 64 + (b3 - 0x80) ∧
                              (b - 0xF0) * 262144 + (b1 - 0x80) * 4096 +
                                (b2 - 0x80) * 64 + (b3 - 0x80) ≤ 0x10FFFF then
                            (decAux fuel r4).map
                              (Char.ofNat ((b - 0xF0) * 262144 + (b1 - 0x80) * 4096 +
                                (b2 - 0x80) * 64 + (b3 - 0x80)) :: ·)
                          else none
                      | none => none
                  | none => none
              | none => none
            else none
      else (decAux fuel t).map (c :: ·)

/-- ECMAScript `decodeURIComponent`; `none` models a thrown `URIError`. -/
def decodeURIComponentJS (s : List Char) : Option (List Char) := decAux s.length s

/-- Lines 20–25: `try { decodeURIComponent(key) } catch { key }`. -/
def tryDecode (s : List Char) : List Char := (decodeURIComponentJS s).getD s

/-- `String.prototype.replace` with a single-character global pattern. -/
def replaceChar (target : Char) (rep : List Char) (s : List Char) : List Char :=
  s.flatMap fun c => if c = target then rep else [c]

/-- `String.prototype.replace` with a character-class global pattern and a
replacement function. -/
def replaceClass (targets : List Char) (f : Char → List Char) (s : List Char) : List Char :=
  s.flatMap fun c => if c ∈ targets then f c else [c]

/-- `a.isPrefixOf b` for char lists, executable (used by `replaceStr` and
by the JS `includes` model). -/
def leadsWith : List Char → List Char → Bool
  | [], _ => true
  | _ :: _, [] => false
  | a :: as, b :: bs => a = b && leadsWith as bs

/-- Worker for multi-character global `replace`: scan left to right, on a
match emit the replacement and continue after the matched text. -/
def replaceStrGo (pat rep : List Char) : Nat → List Char → List Char
  | _, [] => []
  | 0, s => s
  | fuel + 1, c :: cs =>
      if leadsWith pat (c :: cs) then rep ++ replaceStrGo pat rep fuel ((c :: cs).drop pat.length)
      else c :: replaceStrGo pat rep fuel cs

/-- `String.prototype.replace` with a multi-character global pattern. -/
def replaceStr (pat rep s : List Char) : List Char :=
  match pat with
  | [] => s
  | _ :: _ => replaceStrGo pat rep s.length s

/-- `decodedKey.split('/')` (line 28). -/
def splitSlash : List Char → List (List Char)
  | [] => [[]]
  | c :: t =>
      let ps := splitSlash t
      if c = '/' then [] :: ps else (c :: ps.headI) :: ps.tail

/-- `encodedParts.join('/')` (line 52). -/
def joinSlash : List (List Char) → List Char
  | [] => []
  | [p] => p
  | p :: q :: ps => p ++ '/' :: joinSlash (q :: ps)

/-- The per-segment encoder of lines 31–50: `encodeURIComponent` followed by
the replace chain (character class `[!'()*]` with `'%' + code.toString(16)
.toUpperCase()`, then the single-character replacements for
`( ) [ ] { } # ? & = +`, then the identity rewrite of `%20` to `%20`).
Innermost application happens first, in source order. -/
def encodeSegment (part : List Char) : List Char :=
  replaceStr "%20".data "%20".data <|
  replaceChar '+' "%2B".data <|
  replaceChar '=' "%3D".data <|
  replaceChar '&' "%26".data <|
  replaceChar '?' "%3F".data <|
  replaceChar '#' "%23".data <|
  replaceChar (Char.ofNat 125) "%7D".data <|
  replaceChar (Char.ofNat 123) "%7B".data <|
  replaceChar ']' "%5D".data <|
  replaceChar '[' "%5B".data <|
  replaceChar ')' "%29".data <|
  replaceChar '(' "%28".data <|
  replaceClass ['!', '\'', '(', ')', '*'] (fun c => '%' :: jsHexUpper c.toNat) <|
  encodeURIComponentJS part

/-- `encodeS3Key` (lines 18–53): tolerant decode, split on `/`, per-segment
encode, re-join with `/`. -/
def encodeS3Key (key : List Char) : List Char :=
  joinSlash ((splitSlash (tryDecode key)).map encodeSegment)

/-! ## HTTP-layer model

`fetch`, the retry loop, the two download strategies, the strategy loop and
the connection tester are effectful; we embed them by passing the outcome of
every external call explicitly.  A JS exception value is a `JSError`
(carrying `message`); a completed HTTP response is a `Response`. -/

/-- A thrown JavaScript `Error`: only its `message` is inspected. -/
structure JSError where
  message : List Char
deriving DecidableEq

deriving instance DecidableEq for Except

/-- JavaScript `haystack.includes(needle)`: `strIncludes needle haystack`. -/
def strIncludes (pat : List Char) : List Char → Bool
  | [] => leadsWith pat []
  | c :: cs => leadsWith pat (c :: cs) || strIncludes pat cs

/-- A completed `fetch` response (transport succeeded; any status). -/
structure Response where
  status : Nat
  statusText : List Char
  contentType : Option (List Char)
  body : List Nat
deriving DecidableEq

/-- `Response.ok` per the Fetch standard: status in the range 200–299. -/
def Response.okB (r : Response) : Bool := 200 ≤ r.status && r.status ≤ 299

/-! ### `fetchWithRetry` (source lines 200–219)

```js
let lastError;
for (let attempt = 1; attempt <= maxRetries; attempt++) {
    try { const response = await fetch(url, options); return response; }
    catch (error) {
        lastError = error;
        if (attempt < maxRetries) { await new Promise(r => setTimeout(r, attempt * 1000)); }
    }
}
throw lastError;
```
`f attempt` is the outcome of the `fetch` call on attempt number `attempt`
(1-based).  The trace records how many fetch attempts were made, the
`setTimeout` delays (in ms) slept between attempts, and the final result;
a thrown value of `.error none` models `throw lastError` with `lastError`
still `undefined`. -/

structure RetryTrace (ε ρ : Type) where
  attempts : Nat
  delays : List Nat
  result : Except (Option ε) ρ
deriving DecidableEq

/-- The retry loop body; fuel counts the remaining loop iterations
(`maxN + 1 - attempt`). -/
def fetchRetryGo (f : Nat → Except ε ρ) (maxN : Nat) :
    Nat → Nat → Option ε → RetryTrace ε ρ
  | 0, _, last => ⟨0, [], .error last⟩
  | k + 1, attempt, _ =>
      match f attempt with
      | .ok r => ⟨1, [], .ok r⟩
      | .error e =>
          let rest := fetchRetryGo f maxN k (attempt + 1) (some e)
          ⟨rest.attempts + 1,
           (if attempt < maxN then [attempt * 1000] else []) ++ rest.delays,
           rest.result⟩

/-- `fetchWithRetry(url, options, maxRetries)`, abstracted over the fetch
outcomes `f`.  `maxRetries : Int` (JS numbers can be non-positive); the
1-based loop runs `max maxRetries 0` times. -/
def fetchWithRetry (f : Nat → Except ε ρ) (maxRetries : Int) : RetryTrace ε ρ :=
  fetchRetryGo f maxRetries.toNat maxRetries.toNat 1 none

/-! ### Download strategies (source lines 224–294) -/

/-- A progress-callback invocation `(percent, message, urlOrNull)`. -/
structure ProgressEvent where
  percent : Nat
  message : List Char
  url : Option (List Char)
deriving DecidableEq

/-- The value resolved by a successful strategy. -/
structure DownloadResult where
  buffer : List Nat
  contentType : List Char
  size : Nat
  presignedUrl : List Char
deriving DecidableEq

/-- External inputs of one strategy run: the signed URL it constructs
(clock-dependent, hence opaque here) and the outcome of its
`fetchWithRetry` call. -/
structure StrategyEnv where
  signedUrl : List Char
  fetchResult : Except JSError Response
deriving DecidableEq

/-- `downloadWithPresignedUrl` (lines 224–255): progress checkpoints 20/40
before the fetch, a thrown `Error` on a non-ok status, checkpoints 80/100
and the wrapped result on success. -/
def downloadWithPresignedUrl (env : StrategyEnv) :
    List ProgressEvent × Except JSError DownloadResult :=
  let ev1 : ProgressEvent := ⟨20, "Creating pre-signed URL...".data, none⟩
  let ev2 : ProgressEvent := ⟨40, "Downloading via pre-signed URL...".data, some env.signedUrl⟩
  match env.fetchResult with
  | .error e => ([ev1, ev2], .error e)
  | .ok resp =>
      if !resp.okB then
        ([ev1, ev2],
         .error ⟨"Pre-signed URL download failed: ".data ++ (Nat.repr resp.status).data
           ++ [' '] ++ resp.statusText⟩)
      else
        ([ev1, ev2, ⟨80, "Processing downloaded data...".data, some env.signedUrl⟩,
          ⟨100, "Download completed".data, some env.signedUrl⟩],
         .ok ⟨resp.body, resp.contentType.getD "application/pdf".data,
           resp.body.length, env.signedUrl⟩)

/-- `downloadWithDirectSigning` (lines 260–294): same shape with the
header-signing messages and error prefix. -/
def downloadWithDirectSigning (env : StrategyEnv) :
    List ProgressEvent × Except JSError DownloadResult :=
  let ev1 : ProgressEvent := ⟨20, "Creating direct signed request...".data, none⟩
  let ev2 : ProgressEvent := ⟨40, "Downloading with signed headers...".data, some env.signedUrl⟩
  match env.fetchResult with
  | .error e => ([ev1, ev2], .error e)
  | .ok resp =>
      if !resp.okB then
        ([ev1, ev2],
         .error ⟨"Direct signed download failed: ".data ++ (Nat.repr resp.status).data
           ++ [' '] ++ resp.statusText⟩)
      else
        ([ev1, ev2, ⟨80, "Processing downloaded data...".data, some env.signedUrl⟩,
          ⟨100, "Download completed".data, some env.signedUrl⟩],
         .ok ⟨resp.body, resp.contentType.getD "application/pdf".data,
           resp.body.length, env.signedUrl⟩)

/-! ### `downloadFromS3` (source lines 299–331) -/

/-- The credential-failure check of line 324:
`error.message.includes('403') || error.message.includes('Access denied')`. -/
def isAuthErrorMsg (e : JSError) : Bool :=
  strIncludes "403".data e.message || strIncludes "Access denied".data e.message

/-- The strategy loop of lines 312–330 over the (already evaluated)
strategy outcomes: returns the progress events emitted, the names of the
strategies the loop actually ran, and the JS result (`.error` = thrown). -/
def stratLoop :
    List (List Char × List ProgressEvent × Except JSError DownloadResult) → Nat →
      Option JSError →
      List ProgressEvent × List (List Char) × Except JSError DownloadResult
  | [], _, last => ([], [], .error (last.getD ⟨"All download methods failed".data⟩))
  | s :: rest, i, _ =>
      let ev : ProgressEvent := ⟨10 + i * 10, "Trying ".data ++ s.1 ++ " method...".data, none⟩
      match s.2.2 with
      | .ok r => (ev :: s.2.1, [s.1], .ok r)
      | .error e =>
          if isAuthErrorMsg e then (ev :: s.2.1, [s.1], .error e)
          else
            let res := stratLoop rest (i + 1) (some e)
            (ev :: s.2.1 ++ res.1, s.1 :: res.2.1, res.2.2)

/-- `downloadFromS3`, abstracted over the two strategies' external inputs:
the fixed strategy list `[presigned, direct]` of lines 305–308, preceded by
the initial 5 % progress event. -/
def downloadFromS3 (p d : StrategyEnv) :
    List ProgressEvent × List (List Char) × Except JSError DownloadResult :=
  let r := stratLoop
    [("presigned".data, downloadWithPresignedUrl p),
     ("direct".data, downloadWithDirectSigning d)] 0 none
  (⟨5, "Initializing download...".data, none⟩ :: r.1, r.2.1, r.2.2)

/-! ### `testS3Connection` (source lines 336–376) -/

/-- The returned `{success, message}` object. -/
structure Diagnostic where
  success : Bool
  message : List Char
deriving DecidableEq

/-- `testS3Connection`, abstracted over the outcomes of its two HEAD
probes (presigned sentinel object, then unsigned bucket root).  Probe
exceptions are swallowed by the inner `try` blocks; only the final
`throw new Error('All connection test methods failed')` reaches the outer
handler, which wraps it into a `success: false` diagnostic. -/
def testS3Connection (probe1 probe2 : Except JSError Response) : Diagnostic :=
  let m1 : Option Diagnostic :=
    match probe1 with
    | .ok r =>
        if r.status = 200 || r.status = 404 then
          some ⟨true, "AWS credentials valid (pre-signed URL)".data⟩
        else none
    | .error _ => none
  match m1 with
  | some diag => diag
  | none =>
      let m2 : Option Diagnostic :=
        match probe2 with
        | .ok r =>
            if r.status = 200 || r.status = 403 then
              some ⟨true, "AWS setup valid (direct access)".data⟩
            else none
        | .error _ => none
      match m2 with
      | some diag => diag
      | none => ⟨false, "Connection test failed: All connection test methods failed".data⟩

/-! ## Character-level form of the segment encoder (used by the proofs) -/

/-- The per-character form of `encodeSegment` (established below): keep
ASCII alphanumerics and `- _ . ~`, percent-encode everything else. -/
def sKeep (c : Char) : Bool := c.isAlphanum || c ∈ ['-', '_', '.', '~']

def encChar (c : Char) : List Char :=
  if sKeep c then [c] else (utf8EncodeCodepoint c.toNat).flatMap pctEncodeByte

/-- The per-character form of the whole-key encoder: `/` maps to itself. -/
def encCharS (c : Char) : List Char := if c = '/' then ['/'] else encChar c

end S3D


namespace S3D

/-! ## Helper lemmas: characters -/

/-- Unicode scalar-value bounds of a `Char`. -/
theorem char_toNat_valid (c : Char) :
    c.toNat < 0xD800 ∨ (0xDFFF < c.toNat ∧ c.toNat < 0x110000) := c.valid

theorem ne_of_isAlphanum {c t : Char} (h : c.isAlphanum = true)
    (ht : t.isAlphanum = false) : c ≠ t := by
  rintro rfl; rw [h] at ht; cases ht

theorem hexDigitU_spec : ∀ m : Fin 16,
    hexVal (hexDigitU m.val) = some m.val ∧ hexDigitU m.val ≠ '%' ∧ hexDigitU m.val ≠ '/' ∧
      (hexDigitU m.val).isAlphanum = true := by decide

end S3D

namespace S3D

theorem replaceChar_fix {t : Char} {r l : List Char} (h : ∀ x ∈ l, x ≠ t) :
    replaceChar t r l = l := by
  unfold replaceChar
  have h2 : ∀ x ∈ l, (if x = t then r else [x]) = [x] := fun x hx => if_neg (h x hx)
  rw [List.flatMap_congr h2, List.flatMap_singleton']

theorem replaceClass_fix {ts : List Char} {f : Char → List Char} {l : List Char}
    (h : ∀ x ∈ l, x ∉ ts) : replaceClass ts f l = l := by
  unfold replaceClass
  have h2 : ∀ x ∈ l, (if x ∈ ts then f x else [x]) = [x] := fun x hx => if_neg (h x hx)
  rw [List.flatMap_congr h2, List.flatMap_singleton']

theorem leadsWith_take {p : List Char} : ∀ {s : List Char}, leadsWith p s = true →
    s.take p.length = p ∧ p.length ≤ s.length := by
  induction p with
  | nil => intro s _; simp
  | cons a as ih =>
      intro s h
      cases s with
      | nil => simp [leadsWith] at h
      | cons b bs =>
          simp only [leadsWith, Bool.and_eq_true, decide_eq_true_eq] at h
          obtain ⟨rfl, h2⟩ := h
          obtain ⟨h3, h4⟩ := ih h2
          simp [h3, Nat.succ_le_succ h4]

theorem replaceStrGo_self (p : List Char) (hp : p ≠ []) :
    ∀ (fuel : Nat) (s : List Char), s.length ≤ fuel → replaceStrGo p p fuel s = s := by
  intro fuel
  induction fuel with
  | zero =>
      intro s hs
      cases s with
      | nil => rfl
      | cons c cs => simp at hs
  | succ k ih =>
      intro s hs
      cases s with
      | nil => rfl
      | cons c cs =>
          unfold replaceStrGo
          by_cases hl : leadsWith p (c :: cs) = true
          · rw [if_pos hl]
            obtain ⟨htake, hlen⟩ := leadsWith_take hl
            have hplen : 1 ≤ p.length := by
              cases p with
              | nil => exact absurd rfl hp
              | cons _ _ => simp
            have hdrop : ((c :: cs).drop p.length).length ≤ k := by
              simp only [List.length_drop]
              simp only [List.length_cons] at hs ⊢
              omega
            rw [ih _ hdrop]
            conv_rhs => rw [← List.take_append_drop p.length (c :: cs)]
            rw [htake]
          · rw [if_neg hl, ih cs (by simp at hs; omega)]

theorem replaceStr_self (p s : List Char) : replaceStr p p s = s := by
  unfold replaceStr
  cases p with
  | nil => rfl
  | cons a as => exact replaceStrGo_self (a :: as) (by simp) s.length s le_rfl

end S3D

namespace S3D

theorem replaceChar_flatMap (t : Char) (r : List Char) (g : Char → List Char) (l : List Char) :
    replaceChar t r (l.flatMap g) = l.flatMap fun c => replaceChar t r (g c) := by
  unfold replaceChar; rw [List.flatMap_assoc]

theorem replaceClass_flatMap (ts : List Char) (f : Char → List Char) (g : Char → List Char)
    (l : List Char) :
    replaceClass ts f (l.flatMap g) = l.flatMap fun c => replaceClass ts f (g c) := by
  unfold replaceClass; rw [List.flatMap_assoc]

theorem utf8_byte_lt {n b : Nat} (hn : n < 0x110000) (hb : b ∈ utf8EncodeCodepoint n) :
    b < 256 := by
  unfold utf8EncodeCodepoint at hb
  split_ifs at hb <;> simp at hb <;> omega

theorem mem_pct_utf8 {x : Char} {n : Nat} (hn : n < 0x110000)
    (hx : x ∈ (utf8EncodeCodepoint n).flatMap pctEncodeByte) :
    x = '%' ∨ ∃ m : Fin 16, x = hexDigitU m.val := by
  rw [List.mem_flatMap] at hx
  obtain ⟨b, hb, hxb⟩ := hx
  have hb256 : b < 256 := utf8_byte_lt hn hb
  unfold pctEncodeByte at hxb
  simp at hxb
  rcases hxb with rfl | rfl | rfl
  · exact Or.inl rfl
  · exact Or.inr ⟨⟨b / 16, by omega⟩, rfl⟩
  · exact Or.inr ⟨⟨b % 16, by omega⟩, rfl⟩

theorem sKeep_uri {c : Char} (h : sKeep c = true) : uriUnescaped c = true := by
  simp only [sKeep, Bool.or_eq_true, decide_eq_true_eq] at h
  simp only [uriUnescaped, Bool.or_eq_true, decide_eq_true_eq]
  rcases h with h | h
  · exact Or.inl h
  · right; fin_cases h <;> simp

end S3D

namespace S3D

/-- The percent sign is none of the replacement targets. -/
theorem pct_sign_targets :
    ('%' ∉ (['!', '\'', '(', ')', '*'] : List Char)) ∧
      ∀ t ∈ (['(', ')', '[', ']', Char.ofNat 123, Char.ofNat 125, '#', '?', '&', '=', '+'] :
        List Char), '%' ≠ t := by decide

/-- Hex digits are none of the replacement targets. -/
theorem hexDigitU_targets : ∀ m : Fin 16,
    (hexDigitU m.val ∉ (['!', '\'', '(', ')', '*'] : List Char)) ∧
      ∀ t ∈ (['(', ')', '[', ']', Char.ofNat 123, Char.ofNat 125, '#', '?', '&', '=', '+'] :
        List Char), hexDigitU m.val ≠ t := by decide

/-- Characters of a percent-encoded UTF-8 run avoid every replacement target. -/
theorem pct_run_avoids {n : Nat} (hn : n < 0x110000) :
    (∀ x ∈ (utf8EncodeCodepoint n).flatMap pctEncodeByte,
        x ∉ (['!', '\'', '(', ')', '*'] : List Char)) ∧
      ∀ t ∈ (['(', ')', '[', ']', Char.ofNat 123, Char.ofNat 125, '#', '?', '&', '=', '+'] :
        List Char), ∀ x ∈ (utf8EncodeCodepoint n).flatMap pctEncodeByte, x ≠ t := by
  constructor
  · intro x hx
    rcases mem_pct_utf8 hn hx with rfl | ⟨m, rfl⟩
    · exact pct_sign_targets.1
    · exact (hexDigitU_targets m).1
  · intro t ht x hx
    rcases mem_pct_utf8 hn hx with rfl | ⟨m, rfl⟩
    · exact pct_sign_targets.2 t ht
    · exact (hexDigitU_targets m).2 t ht

theorem encodeSegment_eq_flatMap (part : List Char) :
    encodeSegment part = part.flatMap encChar := by
  unfold encodeSegment
  rw [replaceStr_self]
  unfold encodeURIComponentJS
  rw [replaceClass_flatMap]
  rw [replaceChar_flatMap, replaceChar_flatMap, replaceChar_flatMap, replaceChar_flatMap,
    replaceChar_flatMap, replaceChar_flatMap, replaceChar_flatMap, replaceChar_flatMap,
    replaceChar_flatMap, replaceChar_flatMap, replaceChar_flatMap]
  apply List.flatMap_congr
  intro c _
  by_cases h4 : c ∈ (['-', '_', '.', '~'] : List Char)
  · fin_cases h4 <;> decide
  · by_cases h5 : c ∈ (['!', '\'', '(', ')', '*'] : List Char)
    · fin_cases h5 <;> decide
    · by_cases hA : c.isAlphanum
      · -- alphanumeric: everything keeps the singleton `[c]`
        have hU : uriUnescaped c = true := by
          simp only [uriUnescaped, Bool.or_eq_true, decide_eq_true_eq]; exact Or.inl hA
        have hK : sKeep c = true := by
          simp only [sKeep, Bool.or_eq_true, decide_eq_true_eq]; exact Or.inl hA
        have hne : ∀ t ∈ (['(', ')', '[', ']', Char.ofNat 123, Char.ofNat 125, '#', '?', '&',
            '=', '+'] : List Char), ∀ x ∈ [c], x ≠ t := by
          intro t ht x hx
          rw [List.mem_singleton] at hx
          subst hx
          refine ne_of_isAlphanum hA ?_
          fin_cases ht <;> decide
        have hcls : ∀ x ∈ [c], x ∉ (['!', '\'', '(', ')', '*'] : List Char) := by
          intro x hx
          rw [List.mem_singleton] at hx
          subst hx
          exact h5
        rw [if_pos hU, replaceClass_fix hcls]
        rw [replaceChar_fix (hne _ (by simp)), replaceChar_fix (hne _ (by simp)),
          replaceChar_fix (hne _ (by simp)), replaceChar_fix (hne _ (by simp)),
          replaceChar_fix (hne _ (by simp)), replaceChar_fix (hne _ (by simp)),
          replaceChar_fix (hne _ (by simp)), replaceChar_fix (hne _ (by simp)),
          replaceChar_fix (hne _ (by simp)), replaceChar_fix (hne _ (by simp)),
          replaceChar_fix (hne _ (by simp))]
        rw [encChar, if_pos hK]
      · -- not unescaped: a percent run, untouched by every replacement
        have hA' : c.isAlphanum = false := by
          cases h : c.isAlphanum
          · rfl
          · exact absurd h hA
        have hU : uriUnescaped c = false := by
          simp only [uriUnescaped, hA', Bool.false_or, decide_eq_false_iff_not]
          intro hmem
          fin_cases hmem <;> simp_all
        have hK : sKeep c = false := by
          simp only [sKeep, hA', Bool.false_or, decide_eq_false_iff_not]
          exact h4
        have hn : c.toNat < 0x110000 := by
          rcases char_toNat_valid c with h | h
          · omega
          · omega
        obtain ⟨hcls, hne⟩ := pct_run_avoids hn
        rw [if_neg (by simp [hU]), replaceClass_fix hcls]
        rw [replaceChar_fix (hne _ (by simp)), replaceChar_fix (hne _ (by simp)),
          replaceChar_fix (hne _ (by simp)), replaceChar_fix (hne _ (by simp)),
          replaceChar_fix (hne _ (by simp)), replaceChar_fix (hne _ (by simp)),
          replaceChar_fix (hne _ (by simp)), replaceChar_fix (hne _ (by simp)),
          replaceChar_fix (hne _ (by simp)), replaceChar_fix (hne _ (by simp)),
          replaceChar_fix (hne _ (by simp))]
        rw [encChar, if_neg (by simp [hK])]

end S3D

namespace S3D

theorem splitSlash_ne_nil (l : List Char) : splitSlash l ≠ [] := by
  cases l with
  | nil => simp [splitSlash]
  | cons c t =>
      unfold splitSlash
      split <;> simp

theorem joinSlash_cons_append (a p : List Char) (ps : List (List Char)) :
    joinSlash ((a ++ p) :: ps) = a ++ joinSlash (p :: ps) := by
  cases ps with
  | nil => rfl
  | cons q qs => simp [joinSlash]

/-- Splitting on `/`, encoding each part, and re-joining equals a single
character-level `flatMap` that maps `/` to itself. -/
theorem joinSlash_splitSlash_flatMap (g : Char → List Char) (l : List Char) :
    joinSlash ((splitSlash l).map (·.flatMap g)) =
      l.flatMap fun c => if c = '/' then ['/'] else g c := by
  induction l with
  | nil => rfl
  | cons c t ih =>
      by_cases hc : c = '/'
      · subst hc
        have h1 : splitSlash ('/' :: t) = [] :: splitSlash t := by
          simp [splitSlash]
        rw [h1, List.map_cons]
        cases h : (splitSlash t).map (·.flatMap g) with
        | nil => exact absurd (List.map_eq_nil_iff.1 h) (splitSlash_ne_nil t)
        | cons p ps =>
            have h2 : joinSlash (([] : List Char).flatMap g :: p :: ps) =
                '/' :: joinSlash (p :: ps) := rfl
            rw [h2, ← h, ih, List.flatMap_cons, if_pos rfl]
            rfl
      · simp only [splitSlash, if_neg hc]
        cases h : splitSlash t with
        | nil => exact absurd h (splitSlash_ne_nil t)
        | cons p ps =>
            simp only [List.headI, List.tail, List.map_cons, List.flatMap_cons]
            rw [joinSlash_cons_append]
            have : (p.flatMap g) :: ps.map (·.flatMap g) = (splitSlash t).map (·.flatMap g) := by
              rw [h, List.map_cons]
            rw [this, ih]
            simp [List.flatMap_cons, if_neg hc]

/-- The whole-key encoder in character-level form. -/
theorem encodeS3Key_eq_flatMap (key : List Char) :
    encodeS3Key key = (tryDecode key).flatMap encCharS := by
  unfold encodeS3Key
  have : (splitSlash (tryDecode key)).map encodeSegment =
      (splitSlash (tryDecode key)).map (·.flatMap encChar) :=
    List.map_congr_left fun p _ => encodeSegment_eq_flatMap p
  rw [this, joinSlash_splitSlash_flatMap]
  rfl

end S3D

namespace S3D

theorem hexVal_hexDigitU {m : Nat} (h : m < 16) : hexVal (hexDigitU m) = some m :=
  (hexDigitU_spec ⟨m, h⟩).1

theorem readEsc_pct {b : Nat} (hb : b < 256) (rest : List Char) :
    readEsc (pctEncodeByte b ++ rest) = some (b, rest) := by
  show readEsc ('%' :: hexDigitU (b / 16) :: hexDigitU (b % 16) :: rest) = some (b, rest)
  rw [readEsc, hexVal_hexDigitU (by omega), hexVal_hexDigitU (by omega)]
  simp
  omega

theorem decAux_lit {c : Char} (hc : c ≠ '%') (fuel : Nat) (rest : List Char) :
    decAux (fuel + 1) (c :: rest) = (decAux fuel rest).map (c :: ·) := by
  rw [decAux, if_neg hc]

end S3D

namespace S3D

theorem readEsc_pctE {b : Nat} (hb : b < 256) (rest : List Char) :
    readEsc ('%' :: hexDigitU (b / 16) :: hexDigitU (b % 16) :: rest) = some (b, rest) :=
  readEsc_pct hb rest

theorem decAux_b1 {n : Nat} (hn : n < 0x80) (fuel : Nat) (rest : List Char) :
    decAux (fuel + 1) (pctEncodeByte n ++ rest) = (decAux fuel rest).map (Char.ofNat n :: ·) := by
  show decAux (fuel + 1) ('%' :: hexDigitU (n / 16) :: hexDigitU (n % 16) :: rest) = _
  rw [decAux, if_pos rfl, readEsc_pctE (by omega)]
  simp only
  rw [if_pos (by omega : n < 0x80)]

end S3D

namespace S3D

theorem decAux_b2 {n : Nat} (h1 : 0x80 ≤ n) (h2 : n < 0x800) (fuel : Nat) (rest : List Char) :
    decAux (fuel + 1)
      (pctEncodeByte (0xC0 + n / 64) ++ (pctEncodeByte (0x80 + n % 64) ++ rest)) =
      (decAux fuel rest).map (Char.ofNat n :: ·) := by
  show decAux (fuel + 1)
      ('%' :: hexDigitU ((0xC0 + n / 64) / 16) :: hexDigitU ((0xC0 + n / 64) % 16) ::
        ('%' :: hexDigitU ((0x80 + n % 64) / 16) :: hexDigitU ((0x80 + n % 64) % 16) :: rest)) = _
  rw [decAux, if_pos rfl, @readEsc_pctE (0xC0 + n / 64) (by omega)]
  simp only
  rw [if_neg (by omega), if_pos (by omega : 0xC2 ≤ 0xC0 + n / 64 ∧ 0xC0 + n / 64 ≤ 0xDF),
    @readEsc_pctE (0x80 + n % 64) (by omega)]
  simp only
  rw [if_pos (by simp only [isCont, Bool.and_eq_true, decide_eq_true_eq]; omega)]
  have hv : 0xC0 + n / 64 - 0xC0 = n / 64 := by omega
  have hv2 : 0x80 + n % 64 - 0x80 = n % 64 := by omega
  rw [hv, hv2]
  have hv3 : n / 64 * 64 + n % 64 = n := by omega
  rw [hv3]

end S3D

namespace S3D

theorem decAux_b3 {n : Nat} (h1 : 0x800 ≤ n) (h2 : n < 0x10000)
    (hs : ¬(0xD800 ≤ n ∧ n ≤ 0xDFFF)) (fuel : Nat) (rest : List Char) :
    decAux (fuel + 1)
      (pctEncodeByte (0xE0 + n / 4096) ++ (pctEncodeByte (0x80 + n / 64 % 64) ++
        (pctEncodeByte (0x80 + n % 64) ++ rest))) =
      (decAux fuel rest).map (Char.ofNat n :: ·) := by
  show decAux (fuel + 1)
      ('%' :: hexDigitU ((0xE0 + n / 4096) / 16) :: hexDigitU ((0xE0 + n / 4096) % 16) ::
        ('%' :: hexDigitU ((0x80 + n / 64 % 64) / 16) :: hexDigitU ((0x80 + n / 64 % 64) % 16) ::
          ('%' :: hexDigitU ((0x80 + n % 64) / 16) :: hexDigitU ((0x80 + n % 64) % 16) ::
            rest))) = _
  rw [decAux, if_pos rfl, @readEsc_pctE (0xE0 + n / 4096) (by omega)]
  simp only
  rw [if_neg (by omega), if_neg (by omega),
    if_pos (by omega : 0xE0 ≤ 0xE0 + n / 4096 ∧ 0xE0 + n / 4096 ≤ 0xEF),
    @readEsc_pctE (0x80 + n / 64 % 64) (by omega)]
  simp only
  rw [@readEsc_pctE (0x80 + n % 64) (by omega)]
  simp only
  rw [if_pos (by simp only [isCont, Bool.and_eq_true, decide_eq_true_eq]; omega)]
  have hv : (0xE0 + n / 4096 - 0xE0) * 4096 + (0x80 + n / 64 % 64 - 0x80) * 64 +
      (0x80 + n % 64 - 0x80) = n := by omega
  rw [hv]

theorem decAux_b4 {n : Nat} (h1 : 0x10000 ≤ n) (h2 : n < 0x110000) (fuel : Nat)
    (rest : List Char) :
    decAux (fuel + 1)
      (pctEncodeByte (0xF0 + n / 262144) ++ (pctEncodeByte (0x80 + n / 4096 % 64) ++
        (pctEncodeByte (0x80 + n / 64 % 64) ++ (pctEncodeByte (0x80 + n % 64) ++ rest)))) =
      (decAux fuel rest).map (Char.ofNat n :: ·) := by
  show decAux (fuel + 1)
      ('%' :: hexDigitU ((0xF0 + n / 262144) / 16) :: hexDigitU ((0xF0 + n / 262144) % 16) ::
        ('%' :: hexDigitU ((0x80 + n / 4096 % 64) / 16) ::
          hexDigitU ((0x80 + n / 4096 % 64) % 16) ::
          ('%' :: hexDigitU ((0x80 + n / 64 % 64) / 16) :: hexDigitU ((0x80 + n / 64 % 64) % 16) ::
            ('%' :: hexDigitU ((0x80 + n % 64) / 16) :: hexDigitU ((0x80 + n % 64) % 16) ::
              rest)))) = _
  rw [decAux, if_pos rfl, @readEsc_pctE (0xF0 + n / 262144) (by omega)]
  simp only
  rw [if_neg (by omega), if_neg (by omega), if_neg (by omega),
    if_pos (by omega : 0xF0 ≤ 0xF0 + n / 262144 ∧ 0xF0 + n / 262144 ≤ 0xF4),
    @readEsc_pctE (0x80 + n / 4096 % 64) (by omega)]
  simp only
  rw [@readEsc_pctE (0x80 + n / 64 % 64) (by omega)]
  simp only
  rw [@readEsc_pctE (0x80 + n % 64) (by omega)]
  simp only
  rw [if_pos (by simp only [isCont, Bool.and_eq_true, decide_eq_true_eq]; omega)]
  have hv : (0xF0 + n / 262144 - 0xF0) * 262144 + (0x80 + n / 4096 % 64 - 0x80) * 4096 +
      (0x80 + n / 64 % 64 - 0x80) * 64 + (0x80 + n % 64 - 0x80) = n := by omega
  rw [hv]

end S3D

namespace S3D

theorem decAux_encAll : ∀ (d : List Char) (fuel : Nat),
    (d.flatMap encCharS).length ≤ fuel → decAux fuel (d.flatMap encCharS) = some d := by
  intro d
  induction d with
  | nil => intro fuel _; cases fuel <;> rfl
  | cons c t ih =>
      intro fuel hf
      rw [List.flatMap_cons] at hf ⊢
      by_cases hslash : c = '/'
      · subst hslash
        rw [show encCharS '/' = ['/'] from rfl] at hf ⊢
        rw [List.singleton_append] at hf ⊢
        cases fuel with
        | zero => simp at hf
        | succ fl =>
            rw [decAux_lit (by decide) fl, ih fl (by simp only [List.length_cons] at hf; omega)]
            rfl
      · by_cases hk : sKeep c = true
        · have hchunk : encCharS c = [c] := by
            unfold encCharS
            rw [if_neg hslash]
            unfold encChar
            rw [if_pos hk]
          rw [hchunk] at hf ⊢
          rw [List.singleton_append] at hf ⊢
          have hpc : c ≠ '%' := by
            rintro rfl
            exact absurd hk (by decide)
          cases fuel with
          | zero => simp at hf
          | succ fl =>
              rw [decAux_lit hpc fl, ih fl (by simp only [List.length_cons] at hf; omega)]
              rfl
        · have hchunk : encCharS c = (utf8EncodeCodepoint c.toNat).flatMap pctEncodeByte := by
            unfold encCharS
            rw [if_neg hslash]
            unfold encChar
            rw [if_neg hk]
          rw [hchunk] at hf ⊢
          have hval := char_toNat_valid c
          by_cases h1 : c.toNat < 0x80
          · rw [show utf8EncodeCodepoint c.toNat = [c.toNat] from by
              unfold utf8EncodeCodepoint; rw [if_pos h1]] at hf ⊢
            rw [show ([c.toNat].flatMap pctEncodeByte) = pctEncodeByte c.toNat from by
              simp] at hf ⊢
            cases fuel with
            | zero => simp [pctEncodeByte] at hf
            | succ fl =>
                rw [decAux_b1 h1 fl, ih fl (by simp only [pctEncodeByte, List.length_append, List.length_cons, List.length_nil] at hf; omega)]
                simp [Char.ofNat_toNat]
          · by_cases h2 : c.toNat < 0x800
            · rw [show utf8EncodeCodepoint c.toNat =
                  [0xC0 + c.toNat / 64, 0x80 + c.toNat % 64] from by
                unfold utf8EncodeCodepoint; rw [if_neg h1, if_pos h2]] at hf ⊢
              simp only [List.flatMap_cons, List.flatMap_nil, List.append_nil,
                List.append_assoc] at hf ⊢
              cases fuel with
              | zero => simp [pctEncodeByte] at hf
              | succ fl =>
                  rw [decAux_b2 (by omega) h2 fl, ih fl (by simp only [pctEncodeByte, List.length_append, List.length_cons, List.length_nil] at hf; omega)]
                  simp [Char.ofNat_toNat]
            · by_cases h3 : c.toNat < 0x10000
              · rw [show utf8EncodeCodepoint c.toNat =
                    [0xE0 + c.toNat / 4096, 0x80 + c.toNat / 64 % 64, 0x80 + c.toNat % 64] from by
                  unfold utf8EncodeCodepoint; rw [if_neg h1, if_neg h2, if_pos h3]] at hf ⊢
                simp only [List.flatMap_cons, List.flatMap_nil, List.append_nil,
                  List.append_assoc] at hf ⊢
                cases fuel with
                | zero => simp [pctEncodeByte] at hf
                | succ fl =>
                    rw [decAux_b3 (by omega) h3 (by omega) fl,
                      ih fl (by simp only [pctEncodeByte, List.length_append, List.length_cons, List.length_nil] at hf; omega)]
                    simp [Char.ofNat_toNat]
              · rw [show utf8EncodeCodepoint c.toNat =
                    [0xF0 + c.toNat / 262144, 0x80 + c.toNat / 4096 % 64,
                      0x80 + c.toNat / 64 % 64, 0x80 + c.toNat % 64] from by
                  unfold utf8EncodeCodepoint; rw [if_neg h1, if_neg h2, if_neg h3]] at hf ⊢
                simp only [List.flatMap_cons, List.flatMap_nil, List.append_nil,
                  List.append_assoc] at hf ⊢
                cases fuel with
                | zero => simp [pctEncodeByte] at hf
                | succ fl =>
                    rw [decAux_b4 (by omega) (by omega) fl,
                      ih fl (by simp only [pctEncodeByte, List.length_append, List.length_cons, List.length_nil] at hf; omega)]
                    simp [Char.ofNat_toNat]

/-- Decoding the encoder's output recovers exactly the decoded key. -/
theorem decode_encodeS3Key (key : List Char) :
    decodeURIComponentJS (encodeS3Key key) = some (tryDecode key) := by
  rw [encodeS3Key_eq_flatMap]
  unfold decodeURIComponentJS
  exact decAux_encAll (tryDecode key) _ le_rfl

end S3D

namespace S3D

theorem tryDecode_encodeS3Key (key : List Char) :
    tryDecode (encodeS3Key key) = tryDecode key := by
  unfold tryDecode
  rw [show decodeURIComponentJS (encodeS3Key key) = some (tryDecode key) from
    decode_encodeS3Key key]
  rfl

theorem mem_encCharS_ne_slash {c x : Char} (hc : c ≠ '/') (hx : x ∈ encCharS c) : x ≠ '/' := by
  unfold encCharS at hx
  rw [if_neg hc] at hx
  unfold encChar at hx
  by_cases hk : sKeep c = true
  · rw [if_pos hk] at hx
    rw [List.mem_singleton] at hx
    subst hx
    exact hc
  · rw [if_neg hk] at hx
    have hn : c.toNat < 0x110000 := by
      rcases char_toNat_valid c with h | h <;> omega
    rcases mem_pct_utf8 hn hx with rfl | ⟨m, rfl⟩
    · decide
    · exact (hexDigitU_spec m).2.2.1

theorem splitSlash_cons_ne {x : Char} (hx : x ≠ '/') (l : List Char) :
    (splitSlash (x :: l)).length = (splitSlash l).length := by
  have h1 : splitSlash (x :: l) = (x :: (splitSlash l).headI) :: (splitSlash l).tail := by
    simp [splitSlash, hx]
  rw [h1]
  cases h : splitSlash l with
  | nil => exact absurd h (splitSlash_ne_nil l)
  | cons p ps => simp

theorem splitSlash_append_no_slash {xs : List Char} (h : ∀ x ∈ xs, x ≠ '/') (l : List Char) :
    (splitSlash (xs ++ l)).length = (splitSlash l).length := by
  induction xs with
  | nil => rfl
  | cons x xs ih =>
      rw [List.cons_append, splitSlash_cons_ne (h x (by simp)) (xs ++ l)]
      exact ih fun y hy => h y (by simp [hy])

theorem splitSlash_cons_slash (l : List Char) : splitSlash ('/' :: l) = [] :: splitSlash l := by
  simp [splitSlash]

theorem splitSlash_encAll (d : List Char) :
    (splitSlash (d.flatMap encCharS)).length = (splitSlash d).length := by
  induction d with
  | nil => rfl
  | cons c t ih =>
      rw [List.flatMap_cons]
      by_cases hc : c = '/'
      · subst hc
        rw [show encCharS '/' = ['/'] from rfl, List.singleton_append,
          splitSlash_cons_slash (t.flatMap encCharS), splitSlash_cons_slash t]
        simp only [List.length_cons]
        rw [ih]
      · rw [splitSlash_append_no_slash (fun x hx => mem_encCharS_ne_slash hc hx) _,
          splitSlash_cons_ne hc t]
        exact ih

end S3D

namespace S3D

theorem splitSlash_length_eq_count (l : List Char) :
    (splitSlash l).length = l.count '/' + 1 := by
  induction l with
  | nil => rfl
  | cons c t ih =>
      by_cases hc : c = '/'
      · subst hc
        rw [splitSlash_cons_slash, List.length_cons, ih]
        simp [List.count_cons]
      · rw [splitSlash_cons_ne hc, ih]
        simp [List.count_cons, hc]

/-- C5 (amended): key encoding is idempotent in the operational sense the
claim glosses: re-encoding `encodeS3Key`'s own output (which first
percent-decodes its input) yields the identical string, i.e.
`encodeS3Key (encodeS3Key k) = encodeS3Key k` for every key `k`. -/
theorem encodeS3Key_idempotent (k : List Char) :
    encodeS3Key (encodeS3Key k) = encodeS3Key k := by
  show joinSlash ((splitSlash (tryDecode (encodeS3Key k))).map encodeSegment) = _
  rw [tryDecode_encodeS3Key]
  rfl

/-- C5 counterexample to the literal formula
`encode(decode(encode(k))) == encode(k)`: for `k = "%2541"`,
`decodeURIComponent(encodeS3Key k) = "%41"`, and re-encoding that decoded
string gives `"A"`, not `encodeS3Key k = "%2541"` (the extra explicit
decode collapses the double-encoded `%25`). -/
theorem encodeS3Key_idem_cex :
    decodeURIComponentJS (encodeS3Key "%2541".data) = some "%41".data ∧
      encodeS3Key ((decodeURIComponentJS (encodeS3Key "%2541".data)).getD []) ≠
        encodeS3Key "%2541".data := by decide

/-- C6 (amended): `encodeS3Key k` has exactly as many `/`-delimited
segments as the percent-decoded form of `k` (equivalently, the same number
of literal slashes) — slashes are never escaped.  The count can differ from
`k`'s own segment count only when decoding introduces new slashes (`%2F`). -/
theorem encodeS3Key_segments (k : List Char) :
    (splitSlash (encodeS3Key k)).length = (splitSlash (tryDecode k)).length ∧
      (encodeS3Key k).count '/' = (tryDecode k).count '/' := by
  have h1 : (splitSlash (encodeS3Key k)).length = (splitSlash (tryDecode k)).length := by
    rw [encodeS3Key_eq_flatMap]
    exact splitSlash_encAll _
  refine ⟨h1, ?_⟩
  have h2 := splitSlash_length_eq_count (encodeS3Key k)
  have h3 := splitSlash_length_eq_count (tryDecode k)
  omega

/-- C6 counterexample: for `k = "a%2Fb"` (one segment), the encoder first
decodes `%2F` to `/`, so `encodeS3Key k = "a/b"` has two segments. -/
theorem encodeS3Key_segments_cex :
    (splitSlash (encodeS3Key "a%2Fb".data)).length ≠ (splitSlash "a%2Fb".data).length := by
  decide

end S3D

namespace S3D

theorem pairwise_lt_range'L : ∀ (n s : Nat), (List.range' s n).Pairwise (· < ·) := by
  intro n
  induction n with
  | zero => intro s; simp
  | succ k ih =>
      intro s
      rw [List.range'_succ]
      refine List.Pairwise.cons ?_ (ih (s + 1))
      intro b hb
      have hm := List.mem_range'_1.1 hb
      omega

theorem fetchRetryGo_allFail {ε ρ : Type} (f : Nat → Except ε ρ) (maxN : Nat) :
    ∀ (fuel attempt : Nat) (last : Option ε), attempt + fuel = maxN + 1 → 1 ≤ fuel →
      (∀ i, attempt ≤ i → i ≤ maxN → ∀ r, f i ≠ Except.ok r) →
      ∃ e, f maxN = Except.error e ∧
        fetchRetryGo f maxN fuel attempt last =
          ⟨fuel, (List.range' attempt (fuel - 1)).map (· * 1000), .error (some e)⟩ := by
  intro fuel
  induction fuel with
  | zero => intro attempt last h1 h2; omega
  | succ k ih =>
      intro attempt last h1 _ hfail
      have hle : attempt ≤ maxN := by omega
      cases hk : k with
      | zero =>
          subst hk
          have hmax : attempt = maxN := by omega
          subst hmax
          cases hfa : f attempt with
          | ok r => exact absurd hfa (hfail attempt le_rfl hle r)
          | error e =>
              refine ⟨e, rfl, ?_⟩
              simp only [fetchRetryGo, hfa]
              rw [if_neg (by omega : ¬(attempt < attempt))]
              rfl
      | succ k2 =>
          cases hfa : f attempt with
          | ok r => exact absurd hfa (hfail attempt le_rfl hle r)
          | error e =>
              obtain ⟨e2, he2, hgo⟩ := ih (attempt + 1) (some e) (by omega) (by omega)
                (fun i hi1 hi2 => hfail i (by omega) hi2)
              refine ⟨e2, he2, ?_⟩
              rw [fetchRetryGo, hfa]
              simp only [hgo]
              rw [if_pos (show attempt < maxN by omega)]
              subst hk
              simp only [Nat.add_sub_cancel, Nat.succ_sub_one]
              rw [List.range'_succ]
              simp [hgo]

end S3D

namespace S3D

theorem fetchRetryGo_firstOk {ε ρ : Type} (f : Nat → Except ε ρ) (maxN : Nat) :
    ∀ (fuel attempt : Nat) (last : Option ε) (j : Nat) (r : ρ),
      attempt + fuel = maxN + 1 → attempt ≤ j → j ≤ maxN →
      (∀ i, attempt ≤ i → i < j → ∀ r2, f i ≠ Except.ok r2) → f j = Except.ok r →
      (fetchRetryGo f maxN fuel attempt last).result = Except.ok r ∧
      (fetchRetryGo f maxN fuel attempt last).attempts = j - attempt + 1 ∧
      (fetchRetryGo f maxN fuel attempt last).delays =
        (List.range' attempt (j - attempt)).map (· * 1000) := by
  intro fuel
  induction fuel with
  | zero => intro attempt last j r h1 h2 h3 _ _; omega
  | succ k ih =>
      intro attempt last j r h1 h2 h3 hfail hok
      by_cases hj : attempt = j
      · subst hj
        rw [fetchRetryGo, hok]
        refine ⟨rfl, ?_, ?_⟩ <;> simp
      · have hlt : attempt < j := by omega
        cases hfa : f attempt with
        | ok r2 => exact absurd hfa (hfail attempt le_rfl hlt r2)
        | error e =>
            obtain ⟨ih1, ih2, ih3⟩ := ih (attempt + 1) (some e) j r (by omega) (by omega) h3
              (fun i hi1 hi2 => hfail i (by omega) hi2) hok
            rw [fetchRetryGo, hfa]
            refine ⟨?_, ?_, ?_⟩
            · simpa using ih1
            · simp only
              rw [ih2]
              omega
            · simp only
              rw [if_pos (show attempt < maxN by omega), ih3]
              have hd : j - attempt = (j - (attempt + 1)) + 1 := by omega
              rw [hd, List.range'_succ]
              simp

end S3D

namespace S3D

/-- C4: for every fetch behaviour and `maxAttempts ≥ 1`: if every attempt
raises a transport error, `fetchWithRetry` performs exactly `maxAttempts`
attempts, sleeps `attemptIndex * 1000` ms between consecutive attempts
(a non-decreasing sequence), and re-throws the last transport error; any
attempt that completes with a response (any status) is returned as-is with
no further attempts. -/
theorem fetchWithRetry_spec {ε ρ : Type} (f : Nat → Except ε ρ) (maxAttempts : Int)
    (h1 : 1 ≤ maxAttempts) :
    ((∀ i, 1 ≤ i → i ≤ maxAttempts.toNat → ∀ r, f i ≠ Except.ok r) →
      (fetchWithRetry f maxAttempts).attempts = maxAttempts.toNat ∧
      (fetchWithRetry f maxAttempts).delays =
        (List.range' 1 (maxAttempts.toNat - 1)).map (· * 1000) ∧
      (fetchWithRetry f maxAttempts).delays.Pairwise (· ≤ ·) ∧
      ∀ e, f maxAttempts.toNat = Except.error e →
        (fetchWithRetry f maxAttempts).result = Except.error (some e)) ∧
    (∀ j r, 1 ≤ j → j ≤ maxAttempts.toNat →
      (∀ i, 1 ≤ i → i < j → ∀ r2, f i ≠ Except.ok r2) → f j = Except.ok r →
      (fetchWithRetry f maxAttempts).result = Except.ok r ∧
      (fetchWithRetry f maxAttempts).attempts = j ∧
      (fetchWithRetry f maxAttempts).delays = (List.range' 1 (j - 1)).map (· * 1000)) := by
  constructor
  · intro hfail
    obtain ⟨e, he, hgo⟩ := fetchRetryGo_allFail f maxAttempts.toNat maxAttempts.toNat 1 none
      (by omega) (by omega) hfail
    unfold fetchWithRetry
    rw [hgo]
    refine ⟨rfl, rfl, ?_, ?_⟩
    · exact (pairwise_lt_range'L _ _).map _
        (fun a b hab => Nat.mul_le_mul_right 1000 (le_of_lt hab))
    · intro e2 he2
      rw [he] at he2
      cases he2
      rfl
  · intro j r hj1 hj2 hfail hok
    obtain ⟨a, b, c⟩ := fetchRetryGo_firstOk f maxAttempts.toNat maxAttempts.toNat 1 none j r
      (by omega) hj1 hj2 hfail hok
    unfold fetchWithRetry
    refine ⟨a, ?_, ?_⟩
    · rw [b]; omega
    · rw [c]

/-- C4 witness. -/
theorem fetchWithRetry_spec_witness :
    (fetchWithRetry (fun _ : Nat => (Except.error ⟨"Failed to fetch".data⟩ :
        Except JSError Response)) 3).attempts = (3 : Int).toNat ∧
      (fetchWithRetry (fun _ : Nat => (Except.error ⟨"Failed to fetch".data⟩ :
          Except JSError Response)) 3).delays =
        (List.range' 1 ((3 : Int).toNat - 1)).map (· * 1000) ∧
      (fetchWithRetry (fun _ : Nat => (Except.error ⟨"Failed to fetch".data⟩ :
          Except JSError Response)) 3).delays.Pairwise (· ≤ ·) ∧
      (fetchWithRetry (fun _ : Nat => (Except.error ⟨"Failed to fetch".data⟩ :
          Except JSError Response)) 3).result = Except.error (some ⟨"Failed to fetch".data⟩) := by
  obtain ⟨h1, h2, h3, h4⟩ :=
    (fetchWithRetry_spec (fun _ : Nat => (Except.error ⟨"Failed to fetch".data⟩ :
        Except JSError Response)) 3 (by decide)).1
      (fun _ _ _ r h => Except.noConfusion h)
  exact ⟨h1, h2, h3, h4 ⟨"Failed to fetch".data⟩ rfl⟩

/-- C10: with `maxRetries ≤ 0` the loop body never runs: no fetch attempt
is made and the function throws the never-assigned `lastError`, i.e. the
JS `undefined` value (modelled `Except.error none`), not an `Error`. -/
theorem fetchWithRetry_nonpositive {ε ρ : Type} (f : Nat → Except ε ρ) (m : Int) (h : m ≤ 0) :
    fetchWithRetry f m = ⟨0, [], Except.error none⟩ := by
  unfold fetchWithRetry
  rw [Int.toNat_of_nonpos h]
  rfl

/-- C10 witness. -/
theorem fetchWithRetry_nonpositive_witness :
    fetchWithRetry (fun _ : Nat => (Except.error ⟨"boom".data⟩ : Except JSError Response)) 0 =
      ⟨0, [], Except.error none⟩ :=
  fetchWithRetry_nonpositive (fun _ : Nat => (Except.error ⟨"boom".data⟩ :
    Except JSError Response)) 0 (by decide)

end S3D

namespace S3D

/-- C2: if the Presigned strategy fails with an authorization failure (its
error message contains `403` or `Access denied`), `downloadFromS3` throws
that error unchanged and the HeaderSigned (direct) strategy is never
attempted. -/
theorem downloadFromS3_auth_short_circuit (p d : StrategyEnv) (e : JSError)
    (hp : (downloadWithPresignedUrl p).2 = Except.error e) (ha : isAuthErrorMsg e = true) :
    (downloadFromS3 p d).2.2 = Except.error e ∧
      (downloadFromS3 p d).2.1 = ["presigned".data] := by
  unfold downloadFromS3 stratLoop
  simp [hp, ha]

end S3D

namespace S3D

/-- C2 witness. -/
theorem downloadFromS3_auth_short_circuit_witness :
    (downloadFromS3 ⟨"u1".data, Except.ok ⟨403, "Forbidden".data, none, []⟩⟩
        ⟨"u2".data, Except.ok ⟨200, "OK".data, none, [37]⟩⟩).2.2 =
      Except.error ⟨"Pre-signed URL download failed: 403 Forbidden".data⟩ ∧
      (downloadFromS3 ⟨"u1".data, Except.ok ⟨403, "Forbidden".data, none, []⟩⟩
        ⟨"u2".data, Except.ok ⟨200, "OK".data, none, [37]⟩⟩).2.1 = ["presigned".data] :=
  downloadFromS3_auth_short_circuit _ _ _ (by decide) (by decide)

/-- C3: strategy order is fixed with Presigned first; for every Presigned
failure that is not an authorization failure the HeaderSigned strategy is
attempted next, and if it succeeds its result is returned.  The message an
HTTP 404 produces (`Pre-signed URL download failed: 404 Not Found`) is not
classified as an authorization failure, so a 404 (like a transport error)
falls through to the fallback. -/
theorem downloadFromS3_fallback (p d : StrategyEnv) (e : JSError) (r : DownloadResult)
    (hp : (downloadWithPresignedUrl p).2 = Except.error e) (hna : isAuthErrorMsg e = false)
    (hd : (downloadWithDirectSigning d).2 = Except.ok r) :
    (downloadFromS3 p d).2.2 = Except.ok r ∧
      (downloadFromS3 p d).2.1 = ["presigned".data, "direct".data] ∧
      isAuthErrorMsg ⟨"Pre-signed URL download failed: 404 Not Found".data⟩ = false := by
  refine ⟨?_, ?_, by decide⟩ <;> simp [downloadFromS3, stratLoop, hp, hna, hd]

/-- C3 witness. -/
theorem downloadFromS3_fallback_witness :
    (downloadFromS3 ⟨"u1".data, Except.ok ⟨404, "Not Found".data, none, []⟩⟩
        ⟨"u2".data, Except.ok ⟨200, "OK".data, none, [37]⟩⟩).2.2 =
      Except.ok ⟨[37], "application/pdf".data, 1, "u2".data⟩ ∧
      (downloadFromS3 ⟨"u1".data, Except.ok ⟨404, "Not Found".data, none, []⟩⟩
        ⟨"u2".data, Except.ok ⟨200, "OK".data, none, [37]⟩⟩).2.1 =
        ["presigned".data, "direct".data] ∧
      isAuthErrorMsg ⟨"Pre-signed URL download failed: 404 Not Found".data⟩ = false :=
  downloadFromS3_fallback _ _ ⟨"Pre-signed URL download failed: 404 Not Found".data⟩ _
    (by decide) (by decide) (by decide)

/-- C8 (amended): when both strategies fail without an authorization
failure, `downloadFromS3` raises the last concrete error unchanged (no
"tried N of M methods" count is attached to it), and the generic
`All download methods failed` error is only the fallback for the case in
which no error was recorded (an empty strategy list). -/
theorem downloadFromS3_exhausted (p d : StrategyEnv) (e1 e2 : JSError)
    (hp : (downloadWithPresignedUrl p).2 = Except.error e1) (h1 : isAuthErrorMsg e1 = false)
    (hd : (downloadWithDirectSigning d).2 = Except.error e2) (h2 : isAuthErrorMsg e2 = false) :
    (downloadFromS3 p d).2.2 = Except.error e2 ∧
      stratLoop [] 0 none = ([], [], Except.error ⟨"All download methods failed".data⟩) := by
  refine ⟨?_, rfl⟩
  simp [downloadFromS3, stratLoop, hp, h1, hd, h2]

/-- C8 witness. -/
theorem downloadFromS3_exhausted_witness :
    (downloadFromS3 ⟨"u1".data, Except.ok ⟨404, "Not Found".data, none, []⟩⟩
        ⟨"u2".data, Except.ok ⟨500, "Internal Server Error".data, none, []⟩⟩).2.2 =
      Except.error ⟨"Direct signed download failed: 500 Internal Server Error".data⟩ ∧
      stratLoop [] 0 none = ([], [], Except.error ⟨"All download methods failed".data⟩) :=
  downloadFromS3_exhausted _ _ ⟨"Pre-signed URL download failed: 404 Not Found".data⟩
    ⟨"Direct signed download failed: 500 Internal Server Error".data⟩
    (by decide) (by decide) (by decide) (by decide)

/-- C8 counterexample: the raised error is the bare last error; it carries no
"tried N of M methods" text. -/
theorem downloadFromS3_exhausted_cex :
    (downloadFromS3 ⟨"u1".data, Except.ok ⟨404, "Not Found".data, none, []⟩⟩
        ⟨"u2".data, Except.ok ⟨500, "Internal Server Error".data, none, []⟩⟩).2.2 =
      Except.error ⟨"Direct signed download failed: 500 Internal Server Error".data⟩ ∧
      strIncludes "tried".data "Direct signed download failed: 500 Internal Server Error".data =
        false ∧
      strIncludes "of 2 methods".data
        "Direct signed download failed: 500 Internal Server Error".data = false := by
  decide

end S3D

namespace S3D

theorem presigned_percents (env : StrategyEnv) :
    (downloadWithPresignedUrl env).1.map (·.percent) = [20, 40] ∨
      (downloadWithPresignedUrl env).1.map (·.percent) = [20, 40, 80, 100] := by
  unfold downloadWithPresignedUrl
  cases env.fetchResult with
  | error e => left; rfl
  | ok resp =>
      by_cases h : resp.okB
      · right; simp [h]
      · left; simp [h]

theorem direct_percents (env : StrategyEnv) :
    (downloadWithDirectSigning env).1.map (·.percent) = [20, 40] ∨
      (downloadWithDirectSigning env).1.map (·.percent) = [20, 40, 80, 100] := by
  unfold downloadWithDirectSigning
  cases env.fetchResult with
  | error e => left; rfl
  | ok resp =>
      by_cases h : resp.okB
      · right; simp [h]
      · left; simp [h]

theorem presigned_ok_percents {env : StrategyEnv} {r : DownloadResult}
    (h : (downloadWithPresignedUrl env).2 = Except.ok r) :
    (downloadWithPresignedUrl env).1.map (·.percent) = [20, 40, 80, 100] := by
  unfold downloadWithPresignedUrl at h ⊢
  cases hfr : env.fetchResult with
  | error e =>
      simp only [hfr] at h
      simp at h
  | ok resp =>
      simp only [hfr] at h
      by_cases hok : resp.okB
      · simp [hok]
      · simp [hok] at h

theorem downloadFromS3_percents (p d : StrategyEnv) :
    ((downloadFromS3 p d).1.map (·.percent) =
        5 :: 10 :: (downloadWithPresignedUrl p).1.map (·.percent)) ∨
      ((downloadFromS3 p d).1.map (·.percent) =
        5 :: 10 :: ((downloadWithPresignedUrl p).1.map (·.percent) ++
          20 :: (downloadWithDirectSigning d).1.map (·.percent))) := by
  unfold downloadFromS3 stratLoop
  cases hp : (downloadWithPresignedUrl p).2 with
  | ok r => left; simp [hp]
  | error e =>
      by_cases ha : isAuthErrorMsg e
      · left; simp [hp, ha]
      · cases hd : (downloadWithDirectSigning d).2 with
        | ok r => right; simp [stratLoop, hp, ha, hd]
        | error e2 =>
            by_cases ha2 : isAuthErrorMsg e2
            · right; simp [stratLoop, hp, ha, hd, ha2]
            · right; simp [stratLoop, hp, ha, hd, ha2]

/-- C9 (amended): every reported percentage lies in 0..100 and each single
strategy attempt reports a monotonically non-decreasing sequence; when the
Presigned strategy succeeds (no fallback) the whole sequence
`[5, 10, 20, 40, 80, 100]` is monotone.  Across a fallback, monotonicity
fails (see the counterexample): the loop restarts at 20 after Presigned
reached 40. -/
theorem downloadFromS3_progress (p d : StrategyEnv) :
    (∀ ev ∈ (downloadFromS3 p d).1, ev.percent ≤ 100) ∧
      (∀ env : StrategyEnv,
        ((downloadWithPresignedUrl env).1.map (·.percent)).Pairwise (· ≤ ·) ∧
          ((downloadWithDirectSigning env).1.map (·.percent)).Pairwise (· ≤ ·)) ∧
      (∀ r, (downloadWithPresignedUrl p).2 = Except.ok r →
        (downloadFromS3 p d).1.map (·.percent) = [5, 10, 20, 40, 80, 100] ∧
          ((downloadFromS3 p d).1.map (·.percent)).Pairwise (· ≤ ·)) := by
  refine ⟨?_, ?_, ?_⟩
  · intro ev hev
    have hmem : ev.percent ∈ (downloadFromS3 p d).1.map (·.percent) :=
      List.mem_map_of_mem _ hev
    rcases downloadFromS3_percents p d with h | h <;> rw [h] at hmem <;>
      rcases presigned_percents p with h2 | h2 <;> rw [h2] at hmem <;>
      [skip; skip; rcases direct_percents d with h3 | h3 <;> rw [h3] at hmem;
        rcases direct_percents d with h3 | h3 <;> rw [h3] at hmem] <;>
      simp at hmem <;> omega
  · intro env
    constructor
    · rcases presigned_percents env with h | h <;> rw [h] <;> decide
    · rcases direct_percents env with h | h <;> rw [h] <;> decide
  · intro r hr
    have hp := presigned_ok_percents hr
    have hcase : (downloadFromS3 p d).1.map (·.percent) =
        5 :: 10 :: (downloadWithPresignedUrl p).1.map (·.percent) := by
      unfold downloadFromS3 stratLoop
      simp [hr]
    rw [hcase, hp]
    exact ⟨rfl, by decide⟩

/-- C9 counterexample: across a fallback the percentage drops from 40 back
to 20, so the full sequence is not monotone. -/
theorem downloadFromS3_progress_cex :
    ((downloadFromS3 ⟨"u1".data, Except.ok ⟨404, "Not Found".data, none, []⟩⟩
        ⟨"u2".data, Except.ok ⟨200, "OK".data, none, [37]⟩⟩).1.map (·.percent) =
      [5, 10, 20, 40, 20, 20, 40, 80, 100]) ∧
      ¬ (((downloadFromS3 ⟨"u1".data, Except.ok ⟨404, "Not Found".data, none, []⟩⟩
        ⟨"u2".data, Except.ok ⟨200, "OK".data, none, [37]⟩⟩).1.map (·.percent)).Pairwise
          (· ≤ ·)) := by
  decide

end S3D

namespace S3D

/-- C7 (amended): if the presigned HEAD probe returns 200 or 404 the
diagnostic is a success; if both probes return 403 the diagnostic is ALSO a
success (the unsigned bucket-root probe counts 403 as informative success),
contrary to the claim's `ok == false`. -/
theorem testS3Connection_classification :
    (∀ (probe2 : Except JSError Response) (r : Response), r.status = 200 ∨ r.status = 404 →
      (testS3Connection (Except.ok r) probe2).success = true) ∧
    (∀ r1 r2 : Response, r1.status = 403 → r2.status = 403 →
      (testS3Connection (Except.ok r1) (Except.ok r2)).success = true) := by
  constructor
  · intro probe2 r hr
    unfold testS3Connection
    rcases hr with h | h <;> simp [h]
  · intro r1 r2 h1 h2
    unfold testS3Connection
    simp [h1, h2]

/-- C7 witness. -/
theorem testS3Connection_classification_witness :
    (testS3Connection (Except.ok ⟨404, "Not Found".data, none, []⟩)
        (Except.error ⟨"x".data⟩)).success = true ∧
      (testS3Connection (Except.ok ⟨403, "Forbidden".data, none, []⟩)
        (Except.ok ⟨403, "Forbidden".data, none, []⟩)).success = true :=
  ⟨testS3Connection_classification.1 (Except.error ⟨"x".data⟩)
      ⟨404, "Not Found".data, none, []⟩ (Or.inr rfl),
    testS3Connection_classification.2 ⟨403, "Forbidden".data, none, []⟩
      ⟨403, "Forbidden".data, none, []⟩ rfl rfl⟩

/-- C7 counterexample: both probes answering 403 yields a success
diagnostic, not a failure. -/
theorem testS3Connection_cex :
    ¬ ((testS3Connection (Except.ok ⟨403, "Forbidden".data, none, []⟩)
        (Except.ok ⟨403, "Forbidden".data, none, []⟩)).success = false) := by
  decide

end S3D

namespace S3D

set_option maxRecDepth 10000 in
/-- C1: the derivation equals the 4-stage raw-byte HMAC chain, and the
published AWS reference vectors (secret
`wJalrXUtnFEMI/K7MDENG+bPxRfiCYEXAMPLEKEY`, scope
`20150830/us-east-1/iam/aws4_request`) reproduce the documented signing key
and final signature. -/
theorem createSigningKey_spec :
    (∀ secretKey dateStamp region service : List Char,
      createSigningKey secretKey dateStamp region service =
        hmacSHA256
          (hmacSHA256
            (hmacSHA256
              (hmacSHA256 (utf8Encode ("AWS4".data ++ secretKey)) (utf8Encode dateStamp))
              (utf8Encode region))
            (utf8Encode service))
          (utf8Encode "aws4_request".data)) ∧
    bytesToHex (createSigningKey "wJalrXUtnFEMI/K7MDENG+bPxRfiCYEXAMPLEKEY".data
        "20150830".data "us-east-1".data "iam".data) =
      "c4afb1cc5771d871763a393e44b703571b55cc28424d1a5e86da6ed3c154a4b9".data ∧
    bytesToHex (hmacSHA256
        (createSigningKey "wJalrXUtnFEMI/K7MDENG+bPxRfiCYEXAMPLEKEY".data "20150830".data
          "us-east-1".data "iam".data)
        (utf8Encode ("AWS4-HMAC-SHA256\n20150830T123600Z\n20150830/us-east-1/iam/aws4_request\nf536975d06c0309214f805bb90ccff089219ecd68b2577efef23edd43b7e1a59".data))) =
      "5d672d79c15b13162d9279b0855cfba6789a8edb4c82c400e06b5924a6f2b5d7".data :=
  ⟨fun _ _ _ _ => rfl, by decide, by decide⟩

end S3D

namespace S3D

/-- C9 witness. -/
theorem downloadFromS3_progress_witness :
    (downloadFromS3 ⟨"u1".data, Except.ok ⟨200, "OK".data, none, [37]⟩⟩
        ⟨"u2".data, Except.ok ⟨200, "OK".data, none, [37]⟩⟩).1.map (·.percent) =
      [5, 10, 20, 40, 80, 100] ∧
      (((downloadFromS3 ⟨"u1".data, Except.ok ⟨200, "OK".data, none, [37]⟩⟩
        ⟨"u2".data, Except.ok ⟨200, "OK".data, none, [37]⟩⟩).1.map (·.percent)).Pairwise
          (· ≤ ·)) :=
  (downloadFromS3_progress ⟨"u1".data, Except.ok ⟨200, "OK".data, none, [37]⟩⟩
      ⟨"u2".data, Except.ok ⟨200, "OK".data, none, [37]⟩⟩).2.2
    ⟨[37], "application/pdf".data, 1, "u1".data⟩ (by decide)

end S3D
